import Mathlib

/-
Verification development for the thstro-chess rules engine.

This file embeds the engine (piece model, square algebra, board state,
FEN codec, legal-move generation, move application, and the game state
machine) as executable Lean definitions translated from the Rust
sources (src/piece.rs, src/board/squarespec.rs, src/board/mod.rs,
src/board/fen_parser.rs, src/board/legal_moves.rs, src/game.rs), and
proves or refutes the specification claims about them.
-/

set_option maxRecDepth 4000

namespace ThstroChess

/-! ## piece.rs -/

/-- Color of a chess piece or player (piece.rs, enum Color). -/
inductive Color where
  | White
  | Black
deriving DecidableEq, Repr

/-- Color::opposite. -/
def Color.opposite : Color → Color
  | .White => .Black
  | .Black => .White

/-- Color::home_rank: 0 for white, 7 for black. -/
def Color.home_rank : Color → Nat
  | .White => 0
  | .Black => 7

/-- Color::pawn_home_rank: 1 for white, 6 for black. -/
def Color.pawn_home_rank : Color → Nat
  | .White => 1
  | .Black => 6

/-- Kinds of pieces (piece.rs, enum PieceType). -/
inductive PieceType where
  | Pawn
  | Rook
  | Bishop
  | Queen
  | Knight
  | King
deriving DecidableEq, Repr

/-- A piece: kind plus color (piece.rs, struct Piece). -/
structure Piece where
  piece : PieceType
  color : Color
deriving DecidableEq, Repr

/-- Piece::new. -/
def Piece.new (piece : PieceType) (color : Color) : Piece := ⟨piece, color⟩

/-! ## squarespec.rs

Rust u32 coordinates are modelled as Nat, i32 deltas as Int.  The
unchecked `Add<SquareDiff> for SquareSpec` performs an `as u32` cast of
an i32 sum, i.e. wraps modulo 2^32; `u32cast` reproduces that. -/

/-- A board square: rank and file, 0-based (squarespec.rs, SquareSpec). -/
structure SquareSpec where
  rank : Nat
  file : Nat
deriving DecidableEq, Repr

/-- SquareSpec::new: unchecked construction from any unsigned values. -/
def SquareSpec.new (rank file : Nat) : SquareSpec := ⟨rank, file⟩

/-- A signed rank/file offset (squarespec.rs, SquareDiff). -/
structure SquareDiff where
  d_rank : Int
  d_file : Int
deriving DecidableEq, Repr

/-- SquareDiff::new. -/
def SquareDiff.new (d_rank d_file : Int) : SquareDiff := ⟨d_rank, d_file⟩

/-- The `i32 as u32` cast used by the unchecked Add impl. -/
def u32cast (x : Int) : Nat := (x % (4294967296 : Int)).toNat

/-- SquareSpec::checked_add: bounds-checked addition; fails (None) if a
component would leave [0,7] (negative components fail the u32
try_into, components above 7 fail the explicit range check). -/
def SquareSpec.checked_add (s : SquareSpec) (d : SquareDiff) : Option SquareSpec :=
  let rank : Int := (s.rank : Int) + d.d_rank
  let file : Int := (s.file : Int) + d.d_file
  if rank < 0 ∨ file < 0 then none
  else if 7 < rank ∨ 7 < file then none
  else some ⟨rank.toNat, file.toNat⟩

/-- The unchecked `ops::Add<SquareDiff> for SquareSpec` (wrapping cast). -/
def SquareSpec.addDiff (s : SquareSpec) (d : SquareDiff) : SquareSpec :=
  ⟨u32cast ((s.rank : Int) + d.d_rank), u32cast ((s.file : Int) + d.d_file)⟩

/-- `ops::Sub<SquareSpec> for SquareSpec`, producing a SquareDiff. -/
def SquareSpec.sub (a b : SquareSpec) : SquareDiff :=
  ⟨(a.rank : Int) - (b.rank : Int), (a.file : Int) - (b.file : Int)⟩

/-- SquareDiff::abs. -/
def SquareDiff.abs (d : SquareDiff) : SquareDiff := ⟨d.d_rank.natAbs, d.d_file.natAbs⟩

/-- `ops::Add<SquareDiff> for SquareDiff`. -/
def SquareDiff.add (a b : SquareDiff) : SquareDiff := ⟨a.d_rank + b.d_rank, a.d_file + b.d_file⟩

/-- SquareSpec FromStr: exactly two characters, file letter a-h then
rank digit 1-8 (modelled on the char list of the token). -/
def parseSquareChars (cs : List Char) : Option SquareSpec :=
  match cs with
  | [fc, rc] =>
    if 'a'.toNat ≤ fc.toNat ∧ fc.toNat ≤ 'h'.toNat then
      if '1'.toNat ≤ rc.toNat ∧ rc.toNat ≤ '8'.toNat then
        some ⟨rc.toNat - '1'.toNat, fc.toNat - 'a'.toNat⟩
      else none
    else none
  | _ => none

/-- Display for SquareSpec: file letter then rank digit, with a
question mark for out-of-range components. -/
def SquareSpec.display (s : SquareSpec) : List Char :=
  [if s.file ≤ 7 then Char.ofNat (s.file + 'a'.toNat) else '?',
   if s.rank ≤ 7 then Char.ofNat (s.rank + '1'.toNat) else '?']

/-! ## move_types.rs -/

/-- The two castling sides (move_types.rs, enum Castling). -/
inductive Castling where
  | Short
  | Long
deriving DecidableEq, Repr

/-- Moves: normal (also covers en passant), castling, promotion
(move_types.rs, enum Move). -/
inductive Move where
  | normal (fromSq toSq : SquareSpec)
  | castling (c : Castling)
  | promotion (fromSq toSq : SquareSpec) (target : PieceType)
deriving DecidableEq, Repr

/-! ## CastlingFlags (board/mod.rs, bitflags)

Modelled as a Nat bitmask; `u32not` is the u32 bitwise complement used
in `flags &= !MASK` (only ever combined with `land`, and every mask is
below 2^32, so subtraction from u32::MAX is exact). -/

def CastlingFlags.WHITE_SHORT : Nat := 1
def CastlingFlags.WHITE_LONG : Nat := 2
def CastlingFlags.WHITE : Nat := 3
def CastlingFlags.BLACK_SHORT : Nat := 4
def CastlingFlags.BLACK_LONG : Nat := 8
def CastlingFlags.BLACK : Nat := 12
def CastlingFlags.SHORT : Nat := 5
def CastlingFlags.LONG : Nat := 10
def CastlingFlags.DEFAULT : Nat := 15

/-- u32 bitwise complement. -/
def u32not (m : Nat) : Nat := 4294967295 - m

/-- bitflags `contains`: all bits of the mask are set. -/
def CastlingFlags.containsF (f m : Nat) : Bool := f.land m == m

/-! ## Board state (board/mod.rs, struct Board) -/

/-- Full position state: 8x8 grid (row 0 = rank 1), side to move,
castling bitmask, en-passant target, halfmove clock, fullmove number. -/
structure Board where
  board : List (List (Option Piece))
  turn : Color
  castling : Nat
  en_passant : Option SquareSpec
  halfmove : Nat
  fullmove : Nat
deriving DecidableEq, Repr

/-- Rust `board[s.rank][s.file]` as a partial operation: `none` models
the out-of-bounds panic of the Index impl, `some v` a successful read. -/
def Board.index? (b : Board) (s : SquareSpec) : Option (Option Piece) :=
  (b.board.get? s.rank).bind fun row => row.get? s.file

/-- Total read used by the engine internals (every internal access is
in bounds on the 8x8 grid, where this agrees with the Index impl). -/
def Board.getSq (b : Board) (s : SquareSpec) : Option Piece :=
  (((b.board.get? s.rank).getD []).get? s.file).getD none

/-- Grid write (IndexMut); internal accesses are always in bounds. -/
def Board.setSq (b : Board) (s : SquareSpec) (v : Option Piece) : Board :=
  { b with board := b.board.set s.rank (((b.board.get? s.rank).getD []).set s.file v) }

/-- One fully empty rank. -/
def emptyRank : List (Option Piece) := List.replicate 8 none

/-- A back rank (R N B Q K B N R) of the given color. -/
def backRank (c : Color) : List (Option Piece) :=
  [some ⟨.Rook, c⟩, some ⟨.Knight, c⟩, some ⟨.Bishop, c⟩, some ⟨.Queen, c⟩,
   some ⟨.King, c⟩, some ⟨.Bishop, c⟩, some ⟨.Knight, c⟩, some ⟨.Rook, c⟩]

/-- A pawn rank of the given color. -/
def pawnRank (c : Color) : List (Option Piece) :=
  List.replicate 8 (some ⟨.Pawn, c⟩)

/-- Board::default_board: the standard chess starting position. -/
def Board.default_board : Board :=
  { board := [backRank .White, pawnRank .White, emptyRank, emptyRank,
              emptyRank, emptyRank, pawnRank .Black, backRank .Black],
    turn := .White,
    castling := CastlingFlags.DEFAULT,
    en_passant := none,
    halfmove := 0,
    fullmove := 1 }

/-- Board::can_castle: the relevant rights flag bits are non-zero. -/
def Board.can_castle (b : Board) (castle : Castling) (color : Color) : Bool :=
  ((b.castling.land (match color with
      | .White => CastlingFlags.WHITE
      | .Black => CastlingFlags.BLACK)).land (match castle with
      | .Long => CastlingFlags.LONG
      | .Short => CastlingFlags.SHORT)) != 0

/-- All cells of the grid with their coordinates, in the iteration
order of the nested `iter().enumerate()` loops. -/
def Board.cells (b : Board) : List (Nat × Nat × Option Piece) :=
  b.board.enum.flatMap fun rrow => rrow.2.enum.map fun fp => (rrow.1, fp.1, fp.2)

/-- Board::king: first square holding a king of the given color. -/
def Board.king (b : Board) (kc : Color) : Option SquareSpec :=
  (b.cells.find? fun cell => cell.2.2 == some ⟨.King, kc⟩).map fun cell =>
    ⟨cell.1, cell.2.1⟩

/-- Board::unchecked_perform_move: relocates pieces with no legality
checking; only turn flip and (for castling) rights clearing as
bookkeeping. Used to build hypothetical positions for check testing. -/
def Board.unchecked_perform_move (b : Board) (m : Move) : Board :=
  let nb : Board :=
    match m with
    | .normal fromSq toSq => (b.setSq toSq (b.getSq fromSq)).setSq fromSq none
    | .castling c =>
      let rank := b.turn.home_rank
      let kf := 4
      let (rf, kt, rt) : Nat × Nat × Nat :=
        match c with
        | .Long => (0, 2, 3)
        | .Short => (7, 6, 5)
      let king_from := SquareSpec.new rank kf
      let rook_from := SquareSpec.new rank rf
      let king_to := SquareSpec.new rank kt
      let rook_to := SquareSpec.new rank rt
      (((b.setSq king_to (b.getSq king_from)).setSq king_from none).setSq
          rook_to (b.getSq rook_from)).setSq rook_from none
    | .promotion fromSq toSq target =>
      let nb1 := (b.setSq toSq (b.getSq fromSq)).setSq fromSq none
      match nb1.getSq toSq with
      | some p => nb1.setSq toSq (some ⟨target, p.color⟩)
      | none => nb1
  let nb2 : Board :=
    match m with
    | .castling _ =>
      { nb with castling := nb.castling.land (u32not (match b.turn with
          | .White => CastlingFlags.WHITE
          | .Black => CastlingFlags.BLACK)) }
    | _ => nb
  { nb2 with turn := b.turn.opposite }

/-! ## legal_moves.rs -/

/-- The four diagonal unit directions (legal_moves.rs, DIAGONALS). -/
def DIAGONALS : List SquareDiff := [⟨1, 1⟩, ⟨1, -1⟩, ⟨-1, 1⟩, ⟨-1, -1⟩]

/-- The four axis unit directions (legal_moves.rs, AXES). -/
def AXES : List SquareDiff := [⟨0, 1⟩, ⟨1, 0⟩, ⟨0, -1⟩, ⟨-1, 0⟩]

/-- One sliding ray of get_moves_directions: advance by the direction
until the edge, a same-color piece (stop, exclude) or an opposite
color piece (include, stop).  The Rust while-loop terminates because
the direction is a unit vector, so at most 7 successful checked
additions happen; the fuel of 8 is never exhausted first. -/
def slide (col : Color) (b : Board) (dir : SquareDiff) : Nat → SquareSpec → List SquareSpec
  | 0, _ => []
  | n + 1, sq_i =>
    match sq_i.checked_add dir with
    | none => []
    | some sq =>
      match b.getSq sq with
      | some p => if p.color = col then [] else [sq]
      | none => sq :: slide col b dir n sq

/-- legal_moves.rs get_moves_directions: union of the rays. -/
def get_moves_directions (piece_col : Color) (b : Board) (orig_sq : SquareSpec)
    (directions : List SquareDiff) : List SquareSpec :=
  directions.flatMap fun d => slide piece_col b d 8 orig_sq

/-- legal_moves.rs get_moves_knight: eight fixed deltas, checked-added,
same-color destinations excluded. -/
def get_moves_knight (k_col : Color) (b : Board) (orig_sq : SquareSpec) : List SquareSpec :=
  (([(2, 1), (2, -1), (-2, 1), (-2, -1), (1, 2), (1, -2), (-1, 2), (-1, -2)] :
      List (Int × Int)).filterMap fun d =>
        orig_sq.checked_add ⟨d.1, d.2⟩).filter fun x =>
    !(match b.getSq x with
      | some p => k_col == p.color
      | none => false)

/-- Pawn destination kinds (legal_moves.rs, enum PawnMove). -/
inductive PawnMove where
  | NormalP (sq : SquareSpec)
  | EnPassantP (sq : SquareSpec)
  | PromotionP (sq : SquareSpec)
deriving DecidableEq, Repr

/-- legal_moves.rs get_moves_pawn: single step (promotion on the far
rank), double step from the home rank, en-passant diagonals, capture
diagonals, in the push order of the source. -/
def get_moves_pawn (p_col : Color) (b : Board) (orig_sq : SquareSpec) : List PawnMove :=
  let pawn_direction : SquareDiff := ⟨(match p_col with | .White => 1 | .Black => -1), 0⟩
  let forwardMoves : List PawnMove :=
    match orig_sq.checked_add pawn_direction with
    | some sq =>
      match b.getSq sq with
      | none =>
        if sq.rank = p_col.opposite.home_rank then [.PromotionP sq]
        else
          .NormalP sq ::
            (if orig_sq.rank = p_col.pawn_home_rank then
              match sq.checked_add pawn_direction with
              | some sq2 =>
                match b.getSq sq2 with
                | none => [.NormalP sq2]
                | some _ => []
              | none => []
            else [])
      | some _ => []
    | none => []
  let left_diag := (orig_sq.checked_add (pawn_direction.add ⟨0, -1⟩)).map fun sq => (sq, b.getSq sq)
  let right_diag := (orig_sq.checked_add (pawn_direction.add ⟨0, 1⟩)).map fun sq => (sq, b.getSq sq)
  let epMoves : List PawnMove :=
    match b.en_passant with
    | some en_passant =>
      (match left_diag with
       | some (sq, _) => if sq = en_passant then [.EnPassantP sq] else []
       | none => []) ++
      (match right_diag with
       | some (sq, _) => if sq = en_passant then [.EnPassantP sq] else []
       | none => [])
    | none => []
  let leftCap : List PawnMove :=
    match left_diag with
    | some (sq, some p) => if p_col ≠ p.color then [.NormalP sq] else []
    | _ => []
  let rightCap : List PawnMove :=
    match right_diag with
    | some (sq, some p) => if p_col ≠ p.color then [.NormalP sq] else []
    | _ => []
  forwardMoves ++ epMoves ++ leftCap ++ rightCap

/-- Conversion of pawn destinations to Moves, as done inline in
enumerate_legal_moves (promotions expand to the four target kinds in
source order Queen, Knight, Bishop, Rook). -/
def pawnToMoves (location : SquareSpec) : PawnMove → List Move
  | .EnPassantP to_ => [.normal location to_]
  | .NormalP to_ => [.normal location to_]
  | .PromotionP to_ =>
    [.promotion location to_ .Queen, .promotion location to_ .Knight,
     .promotion location to_ .Bishop, .promotion location to_ .Rook]

/-- legal_moves.rs get_moves_king.  The threat test (`is_thr`, the
source's board.is_threatened specialised to the king's color and
board) is passed as an argument because is_threatened itself re-enters
the move generator; the recursive tie is closed in enumFuel. -/
def get_moves_king (k_col : Color) (b : Board) (orig_sq : SquareSpec)
    (check_castling : Bool) (is_thr : SquareSpec → Bool) : List Move :=
  let base : List Move :=
    (AXES ++ DIAGONALS).filterMap fun dir =>
      match orig_sq.checked_add dir with
      | some sq =>
        match b.getSq sq with
        | some p => if p.color == k_col then none else some (.normal orig_sq sq)
        | none => some (.normal orig_sq sq)
      | none => none
  let castles : List Move :=
    if is_thr orig_sq then []
    else
      (if b.can_castle .Long k_col then
        let rank := k_col.home_rank
        if b.getSq ⟨rank, 1⟩ = none ∧ b.getSq ⟨rank, 2⟩ = none ∧ b.getSq ⟨rank, 3⟩ = none then
          if is_thr (orig_sq.addDiff ⟨0, -1⟩) then []
          else [.castling .Long]
        else []
      else []) ++
      (if b.can_castle .Short k_col then
        let rank := k_col.home_rank
        if b.getSq ⟨rank, 5⟩ = none ∧ b.getSq ⟨rank, 6⟩ = none then
          if is_thr (orig_sq.addDiff ⟨0, 1⟩) then []
          else [.castling .Short]
        else []
      else [])
  base ++ (if check_castling then castles else [])

/-- Body of Board::is_threatened, abstracted over the enumerator it
re-enters: some opposite-colored piece has a pseudo-legal (filter
disabled) Normal move landing on the square. -/
def threatScanWith (enum : Piece → SquareSpec → Board → Bool → List Move)
    (b : Board) (color : Color) (sq : SquareSpec) : Bool :=
  b.cells.any fun cell =>
    match cell.2.2 with
    | some p =>
      p.color == color.opposite &&
        (enum p ⟨cell.1, cell.2.1⟩ b false).any fun m =>
          match m with
          | .normal _ to_ => to_ == sq
          | _ => false
    | none => false

/-- Body of the check-filter retain closure in enumerate_legal_moves,
abstracted over the enumerator it re-enters: keep the move unless, on
the hypothetical position after unchecked_perform_move, some piece of
the other color has a pseudo-legal Normal move onto the mover's king
square (keep if that side has no king there). -/
def retainKeepWith (enum : Piece → SquareSpec → Board → Bool → List Move)
    (piece : Piece) (b : Board) (m : Move) : Bool :=
  let new_board := b.unchecked_perform_move m
  match new_board.king b.turn with
  | none => true
  | some king =>
    !(new_board.cells.any fun cell =>
      match cell.2.2 with
      | some p =>
        p.color != piece.color &&
          (enum p ⟨cell.1, cell.2.1⟩ new_board false).any fun m_other =>
            match m_other with
            | .normal _ to_ => to_ == king
            | _ => false
      | none => false)

/-- legal_moves.rs enumerate_legal_moves with an explicit recursion
depth: every self-invocation (the check filter, and is_threatened
inside king castling) passes one less fuel and the flag false.  Fuel 0
returns nothing; the development uses fuel 2, which is proved
sufficient (claim C9). -/
def enumFuel : Nat → Piece → SquareSpec → Board → Bool → List Move
  | 0, _, _, _, _ => []
  | n + 1, piece, location, b, account_for_check =>
    let moves : List Move :=
      match piece.piece with
      | .Pawn => (get_moves_pawn piece.color b location).flatMap (pawnToMoves location)
      | .King =>
        get_moves_king piece.color b location account_for_check
          (fun sq => threatScanWith (enumFuel n) b piece.color sq)
      | .Knight =>
        (get_moves_knight piece.color b location).map fun to_ => .normal location to_
      | .Rook =>
        (get_moves_directions piece.color b location AXES).map fun to_ => .normal location to_
      | .Bishop =>
        (get_moves_directions piece.color b location DIAGONALS).map fun to_ =>
          .normal location to_
      | .Queen =>
        (get_moves_directions piece.color b location (AXES ++ DIAGONALS)).map fun to_ =>
          .normal location to_
    if account_for_check then
      moves.filter fun mv => retainKeepWith (enumFuel n) piece b mv
    else moves

/-- enumerate_legal_moves as used by the rest of the engine (depth 2). -/
def enumerate_legal_moves (piece : Piece) (location : SquareSpec) (b : Board)
    (account_for_check : Bool) : List Move :=
  enumFuel 2 piece location b account_for_check

/-- Board::is_threatened. -/
def Board.is_threatened (b : Board) (color : Color) (sq : SquareSpec) : Bool :=
  threatScanWith enumerate_legal_moves b color sq

/-- Board::in_check: the side to move's king square is threatened;
false if that side has no king. -/
def Board.in_check (b : Board) : Bool :=
  match b.king b.turn with
  | some king => b.is_threatened b.turn king
  | none => false

/-- Board::is_legal: Normal/Promotion moves must be produced by the
full enumeration for the piece on the origin square; Castling only
checks the rights flag. -/
def Board.is_legal (b : Board) (m : Move) (side : Color) : Bool :=
  match m with
  | .normal fromSq _ | .promotion fromSq _ _ =>
    match b.getSq fromSq with
    | some piece => (enumerate_legal_moves piece fromSq b true).contains m
    | none => false
  | .castling c => b.can_castle c side

/-- Board::get_legal_moves: moves of the piece on the square; empty if
the square is empty or holds the side not to move. -/
def Board.get_legal_moves (b : Board) (piece_location : SquareSpec) : List Move :=
  match b.getSq piece_location with
  | some piece =>
    if piece.color ≠ b.turn then []
    else enumerate_legal_moves piece piece_location b true
  | none => []

/-- Board::get_all_legal_moves: union over every same-color piece. -/
def Board.get_all_legal_moves (b : Board) : List Move :=
  b.cells.flatMap fun cell =>
    match cell.2.2 with
    | some p => if p.color = b.turn then b.get_legal_moves ⟨cell.1, cell.2.1⟩ else []
    | none => []

/-! ## Board::perform_move (board/mod.rs) -/

/-- The local rook_taken_castling helper of perform_move: clear one
castling direction when a rook moves from or is captured on file 0/7. -/
def rook_taken_castling (flags : Nat) (file : Nat) (color : Color) : Nat :=
  if file = 0 then
    flags.land (u32not (match color with
      | .White => CastlingFlags.WHITE_LONG
      | .Black => CastlingFlags.BLACK_LONG))
  else if file = 7 then
    flags.land (u32not (match color with
      | .White => CastlingFlags.WHITE_SHORT
      | .Black => CastlingFlags.BLACK_SHORT))
  else flags

/-- Board::perform_move: None if is_legal fails for the side to move,
otherwise the new position.  The Rust function mutates a copy
(new_board) in statement order; each mutation is threaded here as a
sequential let.  The unreachable unwraps (a legal Normal/Promotion
move always has a piece on its origin) are modelled as None. -/
def Board.perform_move (b : Board) (m : Move) : Option Board :=
  if !(b.is_legal m b.turn) then none
  else
    match m with
    | .normal fromSq toSq =>
      match b.getSq fromSq with
      | none => none
      | some mover =>
        let step1 : Board × Nat × Bool × Option SquareSpec :=
          match mover with
          | ⟨.Rook, color⟩ => (b, rook_taken_castling b.castling fromSq.file color, false, none)
          | ⟨.King, color⟩ =>
            (b, b.castling.land (u32not (match color with
                | .White => CastlingFlags.WHITE
                | .Black => CastlingFlags.BLACK)), false, none)
          | ⟨.Pawn, color⟩ =>
            let dir : SquareDiff :=
              match color with
              | .White => SquareDiff.new 1 0
              | .Black => SquareDiff.new (-1) 0
            (match b.en_passant with
             | some en_passant =>
               if en_passant = toSq then
                 (b.setSq (toSq.addDiff dir) none, b.castling, true, none)
               else (b, b.castling, true, none)
             | none =>
               if ((toSq.sub fromSq).abs).d_rank = 2 then
                 (b, b.castling, true, some (fromSq.addDiff dir))
               else (b, b.castling, true, none))
          | _ => (b, b.castling, false, none)
        let nb1 := step1.1
        let castling1 := step1.2.1
        let reset1 := step1.2.2.1
        let new_en_passant := step1.2.2.2
        let reset2 := reset1 || (b.getSq toSq).isSome
        let castling2 : Nat :=
          match b.getSq toSq with
          | some ⟨.Rook, color⟩ => rook_taken_castling castling1 toSq.file color
          | _ => castling1
        let nb2 := (nb1.setSq toSq (b.getSq fromSq)).setSq fromSq none
        some { nb2 with
          castling := castling2,
          en_passant := new_en_passant,
          turn := b.turn.opposite,
          fullmove := if b.turn = .Black then b.fullmove + 1 else b.fullmove,
          halfmove := if reset2 then 0 else b.halfmove + 1 }
    | .castling c =>
      let color := b.turn
      let rank := color.home_rank
      let king_from := SquareSpec.new rank 4
      let (rf, kt, rt) : Nat × Nat × Nat :=
        match c with
        | .Short => (7, 6, 5)
        | .Long => (0, 2, 3)
      let rook_from := SquareSpec.new rank rf
      let king_to := SquareSpec.new rank kt
      let rook_to := SquareSpec.new rank rt
      let castling1 := b.castling.land (u32not (match color with
        | .White => CastlingFlags.WHITE
        | .Black => CastlingFlags.BLACK))
      let nb := (((b.setSq king_to (b.getSq king_from)).setSq king_from none).setSq
        rook_to (b.getSq rook_from)).setSq rook_from none
      some { nb with
        castling := castling1,
        en_passant := none,
        turn := b.turn.opposite,
        fullmove := if b.turn = .Black then b.fullmove + 1 else b.fullmove,
        halfmove := b.halfmove + 1 }
    | .promotion fromSq toSq target =>
      let castling1 : Nat :=
        match b.getSq toSq with
        | some ⟨.Rook, color⟩ => rook_taken_castling b.castling toSq.file color
        | _ => b.castling
      match b.getSq fromSq with
      | none => none
      | some mover =>
        let nb := (b.setSq toSq (some (Piece.new target mover.color))).setSq fromSq none
        some { nb with
          castling := castling1,
          en_passant := none,
          turn := b.turn.opposite,
          fullmove := if b.turn = .Black then b.fullmove + 1 else b.fullmove,
          halfmove := 0 }

/-! ## game.rs -/

/-- The game status machine's states (game.rs, enum BoardState). -/
inductive BoardState where
  | Normal
  | Check
  | Checkmate
  | Draw
  | Stalemate
deriving DecidableEq, Repr

/-- A chess game: position history, move history, current status
(game.rs, struct Game). -/
structure Game where
  boards : List Board
  moves : List Move
  board_state : BoardState
deriving DecidableEq, Repr

/-- Game::new: the default position, no moves, Normal status. -/
def Game.new : Game := ⟨[Board.default_board], [], .Normal⟩

/-- Game::current_board: the latest board (the Rust code indexes the
last element of a never-empty vector; the default board stands in for
the impossible empty case). -/
def Game.current_board (g : Game) : Board :=
  (g.boards.getLast?).getD Board.default_board

/-- Game::update_boardstate: recompute the status from the current
board.  Note the Rust source has no final else: when no branch fires,
board_state keeps its previous value. -/
def Game.update_boardstate (g : Game) : Game :=
  let board := g.current_board
  let legal_moves := board.get_all_legal_moves
  if legal_moves.isEmpty && board.in_check then { g with board_state := .Checkmate }
  else if legal_moves.isEmpty then { g with board_state := .Stalemate }
  else if board.in_check then { g with board_state := .Check }
  else if board.halfmove == 50 then { g with board_state := .Draw }
  else g

/-- Game::make_move: reject unconditionally in a terminal state, else
apply the move to the last board; on success push the new board and
the move and recompute the status.  Returns the new board (the Rust
reference into the history) alongside the updated game. -/
def Game.make_move (g : Game) (next_move : Move) : Option Board × Game :=
  match g.board_state with
  | .Draw | .Stalemate | .Checkmate => (none, g)
  | _ =>
    let last_board := g.current_board
    match last_board.perform_move next_move with
    | none => (none, g)
    | some next_board =>
      let g1 : Game :=
        { g with boards := g.boards ++ [next_board], moves := g.moves ++ [next_move] }
      let g2 := g1.update_boardstate
      (some next_board, g2)

/-- Game::undo_move: pop the most recent (Board, Move) pair if any;
the status field is left untouched. -/
def Game.undo_move (g : Game) : Option (Board × Move) × Game :=
  match g.moves.getLast? with
  | none => (none, g)
  | some m =>
    ((some ((g.boards.getLast?).getD Board.default_board, m)),
     { g with boards := g.boards.dropLast, moves := g.moves.dropLast })

/-! ## Errors (error.rs), without the IO variant which has no pure content -/

/-- The engine's error type (error.rs, enum Error). -/
inductive Error where
  | IllegalMove (b : String) (m : Move)
  | InvalidSquare (s : String)
  | InvalidFen (s : String)
  | InvalidPiece (s : String)
deriving DecidableEq, Repr

/-! ## FEN parsing (board/fen_parser.rs)

Rust's `str::split` is modelled on char lists by `splitChar` (empty
pieces between consecutive separators are kept, and a lone empty
string yields one empty piece, as in Rust). -/

/-- str::split on a single separator char. -/
def splitChar (sep : Char) : List Char → List (List Char)
  | [] => [[]]
  | c :: rest =>
    if c = sep then [] :: splitChar sep rest
    else
      match splitChar sep rest with
      | piece :: pieces => (c :: piece) :: pieces
      | [] => [[c]]

/-- The uppercase piece letters, "PNBRQK". -/
def upperLetters : List Char := ['P', 'N', 'B', 'R', 'Q', 'K']

/-- The lowercase piece letters, "pnbrqk". -/
def lowerLetters : List Char := ['p', 'n', 'b', 'r', 'q', 'k']

/-- Result of reading one placement char (fen_parser.rs, PieceResult). -/
inductive PieceResult where
  | piece (p : Piece)
  | empty (n : Nat)
deriving DecidableEq, Repr

/-- fen_parser.rs parse_piece: any ascii digit (0-9) yields an Empty
run of that many squares; a piece letter yields a piece; anything else
is rejected.  The unreachable arm of the lowercase match is None. -/
def parse_piece (c : Char) : Option PieceResult :=
  if c.isDigit then some (.empty (c.toNat - '0'.toNat))
  else
    match (if upperLetters.contains c then some Color.White
           else if lowerLetters.contains c then some Color.Black
           else none) with
    | none => none
    | some color =>
      match c.toLower with
      | 'p' => some (.piece ⟨.Pawn, color⟩)
      | 'n' => some (.piece ⟨.Knight, color⟩)
      | 'b' => some (.piece ⟨.Bishop, color⟩)
      | 'r' => some (.piece ⟨.Rook, color⟩)
      | 'q' => some (.piece ⟨.Queen, color⟩)
      | 'k' => some (.piece ⟨.King, color⟩)
      | _ => none

/-- One placement row: cur_line built char by char (the Rust loop
pushes left to right; this recursion produces the same list). -/
def build_row : List Char → Option (List (Option Piece))
  | [] => some []
  | c :: rest =>
    match parse_piece c with
    | none => none
    | some (.piece p) => (build_row rest).map fun l => some p :: l
    | some (.empty n) => (build_row rest).map fun l => List.replicate n none ++ l

/-- The row loop of parse_boardstate: each row must build and have
exactly 8 squares. -/
def parse_rows (orig : String) : List (List Char) → Except Error (List (List (Option Piece)))
  | [] => .ok []
  | r :: rest =>
    match build_row r with
    | none => .error (.InvalidFen orig)
    | some cur_line =>
      if cur_line.length = 8 then
        match parse_rows orig rest with
        | .error e => .error e
        | .ok ls => .ok (cur_line :: ls)
      else .error (.InvalidFen orig)

/-- fen_parser.rs parse_boardstate: split on '/', build each row,
reverse, and require exactly 8 rows (the try_into). -/
def parse_boardstate (s : List Char) : Except Error (List (List (Option Piece))) :=
  match parse_rows (String.mk s) (splitChar '/' s) with
  | .error e => .error e
  | .ok lines =>
    let lines2 := lines.reverse
    if lines2.length = 8 then .ok lines2 else .error (.InvalidFen (String.mk s))

/-- Rust `str::parse::<u32>`: an optional leading '+', then one or
more ascii digits, value within u32 range. -/
def parseU32 (cs : List Char) : Option Nat :=
  let ds := match cs with
    | '+' :: rest => rest
    | _ => cs
  if ds ≠ [] ∧ ds.all Char.isDigit then
    let v := ds.foldl (fun acc c => acc * 10 + (c.toNat - '0'.toNat)) 0
    if v < 4294967296 then some v else none
  else none

/-- The side-to-move field: exactly w or b. -/
def parse_turn (tf : List Char) : Option Color :=
  if tf = ['w'] then some Color.White
  else if tf = ['b'] then some Color.Black
  else none

/-- The castling field: letters tested by `contains` in source order
K, k, Q, q; any other characters in that field are ignored, and the
field never causes a parse failure. -/
def parse_castling (cf : List Char) : Nat :=
  (((if cf.contains 'K' then CastlingFlags.WHITE_SHORT else 0).lor
    (if cf.contains 'k' then CastlingFlags.BLACK_SHORT else 0)).lor
    (if cf.contains 'Q' then CastlingFlags.WHITE_LONG else 0)).lor
    (if cf.contains 'q' then CastlingFlags.BLACK_LONG else 0)

/-- The en-passant field: - for none, else a square token. -/
def parse_ep (ef : List Char) : Option (Option SquareSpec) :=
  if ef = ['-'] then some none
  else (parseSquareChars ef).map fun sq => some sq

/-- fen_parser.rs parse: six space-separated fields (extra fields are
ignored, as the Rust iterator never reads them). -/
def parse (s : String) : Except Error Board :=
  match splitChar ' ' s.data with
  | bf :: tf :: cf :: ef :: hf :: ff :: _ =>
    match parse_boardstate bf with
    | .error e => .error e
    | .ok grid =>
      match parse_turn tf with
      | none => .error (.InvalidFen s)
      | some turn =>
        match parse_ep ef with
        | none => .error (.InvalidFen s)
        | some en_passant =>
          match parseU32 hf with
          | none => .error (.InvalidFen s)
          | some halfmove =>
            match parseU32 ff with
            | none => .error (.InvalidFen s)
            | some fullmove =>
              .ok { board := grid, turn := turn, castling := parse_castling cf,
                    en_passant := en_passant, halfmove := halfmove,
                    fullmove := fullmove }
  | _ => .error (.InvalidFen s)

/-- Board::load_fen. -/
def Board.load_fen (s : String) : Except Error Board := parse s

/-! ## Display (board/mod.rs impl fmt::Display) -/

/-- Display for Piece: letter, lowercased for black. -/
def pieceChar (p : Piece) : Char :=
  let c : Char :=
    match p.piece with
    | .Pawn => 'P'
    | .Rook => 'R'
    | .Bishop => 'B'
    | .Queen => 'Q'
    | .Knight => 'N'
    | .King => 'K'
  match p.color with
  | .White => c
  | .Black => c.toLower

/-- Display for CastlingFlags, exactly as in the source: note that the
'q' letter is emitted when BLACK_SHORT (not BLACK_LONG) is contained;
this reproduces the source's line 495. -/
def CastlingFlags.display (f : Nat) : List Char :=
  (if CastlingFlags.containsF f CastlingFlags.WHITE_SHORT then ['K'] else []) ++
  (if CastlingFlags.containsF f CastlingFlags.WHITE_LONG then ['Q'] else []) ++
  (if CastlingFlags.containsF f CastlingFlags.BLACK_SHORT then ['k'] else []) ++
  (if CastlingFlags.containsF f CastlingFlags.BLACK_SHORT then ['q'] else [])

/-- One rank of the placement field: pieces as letters, runs of empty
squares as their decimal count (the loop carries the run count). -/
def rowChars : List (Option Piece) → Nat → List Char
  | [], empty_squares => if empty_squares ≠ 0 then (Nat.repr empty_squares).data else []
  | some p :: rest, empty_squares =>
    (if empty_squares ≠ 0 then (Nat.repr empty_squares).data else []) ++
      (pieceChar p :: rowChars rest 0)
  | none :: rest, empty_squares => rowChars rest (empty_squares + 1)

/-- Display for Board: ranks 8 down to 1 joined by '/', then turn,
castling, en-passant, halfmove, fullmove, space separated. -/
def Board.toFen (b : Board) : String :=
  let placement := (List.intercalate ['/'] (b.board.reverse.map fun r => rowChars r 0))
  String.mk (placement ++ [' '] ++
    [(match b.turn with | .White => 'w' | .Black => 'b')] ++ [' '] ++
    CastlingFlags.display b.castling ++ [' '] ++
    (match b.en_passant with
     | some sq => sq.display
     | none => ['-']) ++ [' '] ++
    (Nat.repr b.halfmove).data ++ [' '] ++ (Nat.repr b.fullmove).data)

/-! ## Concrete positions and games used by the claims -/

/-- Rank 5 of the en-passant position: white pawn f5, black pawn g5. -/
def epRank5 : List (Option Piece) :=
  [none, none, none, none, none, some ⟨.Pawn, .White⟩, some ⟨.Pawn, .Black⟩, none]

/-- The position 8/8/8/5Pp1/8/8/8/8 w - g6 0 1: black has just played
the double step g7g5, so g6 is the en-passant target. -/
def bEnPassant : Board :=
  { board := [emptyRank, emptyRank, emptyRank, emptyRank, epRank5,
              emptyRank, emptyRank, emptyRank],
    turn := .White, castling := 0, en_passant := some ⟨5, 6⟩,
    halfmove := 0, fullmove := 1 }

/-- Rank 2 with a single white pawn on d2. -/
def d2Rank : List (Option Piece) :=
  [none, none, none, some ⟨.Pawn, .White⟩, none, none, none, none]

/-- The position 8/8/8/5Pp1/8/8/3P4/8 w - g6 0 1: an en-passant target
is set and white also has a pawn on d2 able to double-step. -/
def bDoubleWithTarget : Board :=
  { board := [emptyRank, d2Rank, emptyRank, emptyRank, epRank5,
              emptyRank, emptyRank, emptyRank],
    turn := .White, castling := 0, en_passant := some ⟨5, 6⟩,
    halfmove := 0, fullmove := 1 }

/-- Rank 1 with a single white rook on g1. -/
def rookG1Rank : List (Option Piece) :=
  [none, none, none, none, none, none, some ⟨.Rook, .White⟩, none]

/-- Rank 5 with the white king on b5. -/
def kingB5Rank : List (Option Piece) :=
  [none, some ⟨.King, .White⟩, none, none, none, none, none, none]

/-- Rank 8 with the black king on a8. -/
def kingA8Rank : List (Option Piece) :=
  [some ⟨.King, .Black⟩, none, none, none, none, none, none, none]

/-- A position with halfmove clock 49 where white (Kb5, Rg1 versus
Ka8) can play the checking rook lift g1g8. -/
def bHalf49Check : Board :=
  { board := [rookG1Rank, emptyRank, emptyRank, emptyRank, kingB5Rank,
              emptyRank, emptyRank, kingA8Rank],
    turn := .White, castling := 0, en_passant := none,
    halfmove := 49, fullmove := 70 }

/-- A game sitting on that position. -/
def gHalf49Check : Game := ⟨[bHalf49Check], [], .Normal⟩

/-- Rank 1 with the white king on a1 and a white rook on g1. -/
def kingA1RookG1Rank : List (Option Piece) :=
  [some ⟨.King, .White⟩, none, none, none, none, none, some ⟨.Rook, .White⟩, none]

/-- Rank 8 with the black king on h8. -/
def kingH8Rank : List (Option Piece) :=
  [none, none, none, none, none, none, none, some ⟨.King, .Black⟩]

/-- A position with halfmove clock 49 where white (Ka1, Rg1 versus
Kh8) has the quiet rook move g1g2: no capture, no check. -/
def bHalf49Quiet : Board :=
  { board := [kingA1RookG1Rank, emptyRank, emptyRank, emptyRank, emptyRank,
              emptyRank, emptyRank, kingH8Rank],
    turn := .White, castling := 0, en_passant := none,
    halfmove := 49, fullmove := 70 }

/-- The position after the quiet rook move g1g2. -/
def bHalf50Quiet : Board :=
  (bHalf49Quiet.perform_move (.normal ⟨0, 6⟩ ⟨1, 6⟩)).getD Board.default_board

/-- Rank 1 with only the white king on e1. -/
def kingE1Rank : List (Option Piece) :=
  [none, none, none, none, some ⟨.King, .White⟩, none, none, none]

/-- Rank 8 with only the black king on e8. -/
def kingE8Rank : List (Option Piece) :=
  [none, none, none, none, some ⟨.King, .Black⟩, none, none, none]

/-- A bare-kings position, white to move. -/
def bKings : Board :=
  { board := [kingE1Rank, emptyRank, emptyRank, emptyRank, emptyRank,
              emptyRank, emptyRank, kingE8Rank],
    turn := .White, castling := 0, en_passant := none,
    halfmove := 3, fullmove := 9 }

/-- The king move e1d1 on the bare-kings position. -/
def mKings : Move := .normal ⟨0, 4⟩ ⟨0, 3⟩

/-- The bare-kings position after e1d1. -/
def bKings2 : Board := (bKings.perform_move mKings).getD Board.default_board

/-! ## Claim C1 -/

/-- C1: the spec says an en-passant capture removes the captured pawn
one rank behind the destination (here g5).  The code instead clears
the square one rank beyond the destination in the mover's direction
(to + dir, here g7), so after the legal en-passant capture f5xg6 the
black pawn still stands on g5 while the white pawn sits on g6.  (In a
debug build the source's own debug_assert on that square fires.)  This
theorem evaluates perform_move at the failing input. -/
theorem C1_en_passant_removes_wrong_square :
    (bEnPassant.perform_move (.normal ⟨4, 5⟩ ⟨5, 6⟩)).map
        (fun b => (b.getSq ⟨4, 6⟩, b.getSq ⟨5, 6⟩, b.getSq ⟨6, 6⟩)) =
      some (some ⟨.Pawn, .Black⟩, some ⟨.Pawn, .White⟩, none) := by
  decide

/-! ## Claim C5 -/

/-- C5: a pawn double step must set the new en-passant target
irrespective of whether the starting position had one.  Because the
code's double-step branch is the else of `if let Some(en_passant)`,
a position that already has a target (bDoubleWithTarget, target g6)
gets no new target after the double step d2d4: the result's en-passant
field is none instead of d3. -/
theorem C5_en_passant_target_lost_after_double_step :
    bDoubleWithTarget.en_passant = some ⟨5, 6⟩ ∧
    bDoubleWithTarget.getSq ⟨1, 3⟩ = some ⟨.Pawn, .White⟩ ∧
    (bDoubleWithTarget.perform_move (.normal ⟨1, 3⟩ ⟨3, 3⟩)).map Board.en_passant =
      some none := by
  decide

/-! ## Claim C7 -/

/-- C7: in a terminal state (Checkmate, Draw, Stalemate) make_move
rejects every move, and every rejection (for any reason) returns the
game completely unchanged: history, moves and current position. -/
theorem C7_terminal_and_rejected_moves_leave_game_unchanged (g : Game) (m : Move)
    (h : g.board_state = .Checkmate ∨ g.board_state = .Draw ∨
         g.board_state = .Stalemate ∨ (g.make_move m).1 = none) :
    g.make_move m = (none, g) := by
  unfold Game.make_move at h ⊢
  cases hst : g.board_state <;> simp [hst] at h ⊢ <;>
    cases hp : (g.current_board.perform_move m) <;> simp [hp] at h ⊢

/-- C7 witness: a drawn game rejects a normal opening move unchanged. -/
theorem C7_witness :
    Game.make_move ⟨[Board.default_board], [], .Draw⟩ (.normal ⟨1, 4⟩ ⟨3, 4⟩) =
      (none, ⟨[Board.default_board], [], .Draw⟩) :=
  C7_terminal_and_rejected_moves_leave_game_unchanged _ _ (Or.inr (Or.inl rfl))

/-! ## Claim C10 -/

/-- C10: SquareSpec::new accepts any unsigned values, and indexing a
Board is total exactly on squares with rank and file at most 7: on a
well-formed 8x8 grid, the Index access returns a value iff both
components are in range, and panics (index? = none) otherwise. -/
theorem C10_board_indexing_total_iff_in_range (b : Board) (r f : Nat)
    (hwf : b.board.length = 8 ∧ ∀ row ∈ b.board, row.length = 8) :
    (b.index? (SquareSpec.new r f)).isSome ↔ (r ≤ 7 ∧ f ≤ 7) := by
  obtain ⟨h8, hrow⟩ := hwf
  unfold Board.index? SquareSpec.new
  dsimp only
  constructor
  · intro h
    rcases hr : b.board.get? r with _ | row
    · rw [hr, Option.none_bind] at h; cases h
    · have hrl := hrow _ (List.get?_mem hr)
      rw [hr, Option.some_bind] at h
      rcases hf : row.get? f with _ | v
      · rw [hf] at h; cases h
      · have hrlen : r < b.board.length := by
          by_contra hc
          rw [(List.get?_eq_none).mpr (by omega)] at hr
          cases hr
        have hflen : f < row.length := by
          by_contra hc
          rw [(List.get?_eq_none).mpr (by omega)] at hf
          cases hf
        omega
  · intro hrf
    rcases hr : b.board.get? r with _ | row
    · rw [List.get?_eq_none] at hr; omega
    · have hrl := hrow _ (List.get?_mem hr)
      rcases hf : row.get? f with _ | v
      · rw [List.get?_eq_none] at hf; omega
      · rw [List.get?_eq_getElem?] at hf
        simp [hf]

/-- C10 witness: the default board is 8x8, and indexing it at rank 8
(out of range) is exactly as partial as the theorem states. -/
theorem C10_witness :
    (Board.default_board.index? (SquareSpec.new 8 0)).isSome ↔ (8 ≤ 7 ∧ 0 ≤ 7) :=
  C10_board_indexing_total_iff_in_range Board.default_board 8 0 (by decide)

/-! ## Claim C4 -/

/-- C4 counterexample: the claim says a new halfmove clock of 50
forces Draw regardless of check status.  In the code the Check branch
precedes the halfmove test, so the accepted checking rook move g1g8
out of bHalf49Check produces clock 50 but status Check, not Draw. -/
theorem C4_counterexample_check_beats_draw :
    ((gHalf49Check.make_move (.normal ⟨0, 6⟩ ⟨7, 6⟩)).1.map Board.halfmove = some 50) ∧
    (gHalf49Check.make_move (.normal ⟨0, 6⟩ ⟨7, 6⟩)).2.board_state = BoardState.Check := by
  decide

/-- The boards list of update_boardstate's result is unchanged. -/
theorem update_boardstate_fields (g : Game) :
    (g.update_boardstate).boards = g.boards ∧ (g.update_boardstate).moves = g.moves := by
  simp only [Game.update_boardstate]
  split_ifs <;> exact ⟨rfl, rfl⟩

/-- C4 (amended): an accepted move producing a half-move clock of 50
sets the status to Draw regardless of the material on the board,
provided the new side to move has at least one legal move and is not
in check (in the code those two branches take precedence over the
50-move test). -/
theorem C4_amended_halfmove_50_draw (g : Game) (m : Move) (nb : Board)
    (hterm : g.board_state ≠ .Checkmate ∧ g.board_state ≠ .Draw ∧ g.board_state ≠ .Stalemate)
    (hperf : g.current_board.perform_move m = some nb)
    (hhalf : nb.halfmove = 50)
    (hmoves : nb.get_all_legal_moves.isEmpty = false)
    (hcheck : nb.in_check = false) :
    (g.make_move m).2.board_state = BoardState.Draw := by
  obtain ⟨h1, h2, h3⟩ := hterm
  unfold Game.make_move
  cases hst : g.board_state <;> simp_all
  all_goals
    have hne : nb.get_all_legal_moves.isEmpty = false := by
      cases hq : nb.get_all_legal_moves with
      | nil => exact absurd hq hmoves
      | cons a l => rfl
    simp [Game.update_boardstate, Game.current_board, List.getLast?_concat,
      hne, hcheck, hhalf]

/-- C4 amended witness: the quiet rook move g1g2 out of bHalf49Quiet
reaches clock 50 with the opponent unchecked and mobile; the status
becomes Draw. -/
theorem C4_amended_witness :
    (Game.make_move ⟨[bHalf49Quiet], [], .Normal⟩ (.normal ⟨0, 6⟩ ⟨1, 6⟩)).2.board_state =
      BoardState.Draw :=
  C4_amended_halfmove_50_draw ⟨[bHalf49Quiet], [], .Normal⟩ (.normal ⟨0, 6⟩ ⟨1, 6⟩)
    bHalf50Quiet (by decide) (by decide) (by decide) (by decide) (by decide)

/-! ## Claim C6 -/

/-- C6 (amended): for a game with at least one played move whose
status is not Checkmate, Draw or Stalemate (undo_move does not restore
the status, so a terminal status still blocks the replay) and whose
last recorded move transforms the penultimate board into the last
board (as holds for every game built through make_move), undo_move
followed by make_move of the same move succeeds and reproduces the
prior current position, histories included. -/
theorem C6_amended_undo_then_replay (bs : List Board) (ms : List Move) (st : BoardState)
    (b0 b1 : Board) (m : Move)
    (hterm : st ≠ .Checkmate ∧ st ≠ .Draw ∧ st ≠ .Stalemate)
    (hperf : b0.perform_move m = some b1) :
    (Game.undo_move ⟨bs ++ [b0] ++ [b1], ms ++ [m], st⟩).1 = some (b1, m) ∧
    ((Game.undo_move ⟨bs ++ [b0] ++ [b1], ms ++ [m], st⟩).2.make_move m).1 = some b1 ∧
    ((Game.undo_move ⟨bs ++ [b0] ++ [b1], ms ++ [m], st⟩).2.make_move m).2.boards =
      bs ++ [b0] ++ [b1] ∧
    ((Game.undo_move ⟨bs ++ [b0] ++ [b1], ms ++ [m], st⟩).2.make_move m).2.moves =
      ms ++ [m] ∧
    ((Game.undo_move ⟨bs ++ [b0] ++ [b1], ms ++ [m], st⟩).2.make_move m).2.current_board =
      Game.current_board ⟨bs ++ [b0] ++ [b1], ms ++ [m], st⟩ := by
  have hundo : Game.undo_move ⟨bs ++ [b0] ++ [b1], ms ++ [m], st⟩ =
      (some (b1, m), ⟨bs ++ [b0], ms, st⟩) := by
    simp [Game.undo_move, List.getLast?_concat, List.dropLast_concat]
  have hmk : Game.make_move ⟨bs ++ [b0], ms, st⟩ m =
      (some b1, Game.update_boardstate ⟨bs ++ [b0] ++ [b1], ms ++ [m], st⟩) := by
    obtain ⟨h1, h2, h3⟩ := hterm
    unfold Game.make_move
    cases st <;> simp_all [Game.current_board, List.getLast?_concat]
  have hub := update_boardstate_fields ⟨bs ++ [b0] ++ [b1], ms ++ [m], st⟩
  rw [hundo]
  have h1 : (Game.make_move ⟨bs ++ [b0], ms, st⟩ m).1 = some b1 := by rw [hmk]
  have h2 : (Game.make_move ⟨bs ++ [b0], ms, st⟩ m).2.boards = bs ++ [b0] ++ [b1] := by
    rw [hmk]; exact hub.1
  have h3 : (Game.make_move ⟨bs ++ [b0], ms, st⟩ m).2.moves = ms ++ [m] := by
    rw [hmk]; exact hub.2
  have h4 : (Game.make_move ⟨bs ++ [b0], ms, st⟩ m).2.current_board =
      Game.current_board ⟨bs ++ [b0] ++ [b1], ms ++ [m], st⟩ := by
    rw [hmk]
    simp only [Game.current_board, hub.1, List.getLast?_concat, Option.getD_some]
  exact ⟨rfl, h1, h2, h3, h4⟩

/-- C6 amended witness: bare kings, one played move e1d1, undone and
replayed. -/
theorem C6_amended_witness :
    (Game.undo_move ⟨[] ++ [bKings] ++ [bKings2], [] ++ [mKings], .Normal⟩).1 =
      some (bKings2, mKings) ∧
    ((Game.undo_move ⟨[] ++ [bKings] ++ [bKings2], [] ++ [mKings], .Normal⟩).2.make_move
        mKings).1 = some bKings2 ∧
    ((Game.undo_move ⟨[] ++ [bKings] ++ [bKings2], [] ++ [mKings], .Normal⟩).2.make_move
        mKings).2.boards = [] ++ [bKings] ++ [bKings2] ∧
    ((Game.undo_move ⟨[] ++ [bKings] ++ [bKings2], [] ++ [mKings], .Normal⟩).2.make_move
        mKings).2.moves = [] ++ [mKings] ∧
    ((Game.undo_move ⟨[] ++ [bKings] ++ [bKings2], [] ++ [mKings], .Normal⟩).2.make_move
        mKings).2.current_board =
      Game.current_board ⟨[] ++ [bKings] ++ [bKings2], [] ++ [mKings], .Normal⟩ :=
  C6_amended_undo_then_replay [] [] .Normal bKings bKings2 mKings
    (by decide) (by decide)

/-- The fool's mate game: f2f3, e7e5, g2g4, Qd8h4 checkmate. -/
def gFool : Game :=
  ((((Game.new.make_move (.normal ⟨1, 5⟩ ⟨2, 5⟩)).2.make_move
      (.normal ⟨6, 4⟩ ⟨4, 4⟩)).2.make_move
      (.normal ⟨1, 6⟩ ⟨3, 6⟩)).2.make_move
      (.normal ⟨7, 3⟩ ⟨3, 7⟩)).2

/-- C6 counterexample: the claim as stated fails for a game whose
status is terminal.  After the fool's mate the status is Checkmate;
undo_move pops the last pair, but make_move of the very same move is
rejected (None) because the stale Checkmate status short-circuits it. -/
theorem C6_counterexample_replay_blocked_after_mate :
    gFool.moves.length = 4 ∧
    gFool.board_state = BoardState.Checkmate ∧
    (gFool.undo_move).1 = some (gFool.current_board, .normal ⟨7, 3⟩ ⟨3, 7⟩) ∧
    ((gFool.undo_move).2.make_move (.normal ⟨7, 3⟩ ⟨3, 7⟩)).1 = none := by
  decide

/-! ## Claim C2 -/

/-- The game 1. e3 f6 2. Qh5+ g6: white's queen check is answered by
the blocking pawn move, after which no status branch fires. -/
def gCheckEscape : Game :=
  ((((Game.new.make_move (.normal ⟨1, 4⟩ ⟨2, 4⟩)).2.make_move
      (.normal ⟨6, 5⟩ ⟨5, 5⟩)).2.make_move
      (.normal ⟨0, 3⟩ ⟨4, 7⟩)).2.make_move
      (.normal ⟨6, 6⟩ ⟨5, 6⟩)).2

/-- C2: the claim says that after an accepted move whose new position
has legal moves, no check and a halfmove clock other than 50, the
status is recomputed to Normal regardless of the previous status.
The code's update_boardstate has no final else, so after 1. e3 f6
2. Qh5+ g6 (four accepted moves, new position quiet) the status stays
Check instead of being reset to Normal. -/
theorem C2_status_not_reset_to_normal :
    gCheckEscape.moves.length = 4 ∧
    gCheckEscape.current_board.in_check = false ∧
    gCheckEscape.current_board.get_all_legal_moves.isEmpty = false ∧
    gCheckEscape.current_board.halfmove = 0 ∧
    gCheckEscape.board_state = BoardState.Check := by
  decide

/-! ## Claim C3 -/

/-- The reachable position after 1. a4 a5 2. h3 Ra6: black's long
castling right is gone, the short one remains. -/
def reachedC3 : Option Board :=
  (((Board.default_board.perform_move (.normal ⟨1, 0⟩ ⟨3, 0⟩)).bind
     (fun b => b.perform_move (.normal ⟨6, 0⟩ ⟨4, 0⟩))).bind
     (fun b => b.perform_move (.normal ⟨1, 7⟩ ⟨2, 7⟩))).bind
     (fun b => b.perform_move (.normal ⟨7, 0⟩ ⟨5, 0⟩))

/-- C3: serializing the default start position does yield the exact
claimed string, and parsing it back reproduces the default board; but
the universally quantified round trip fails on a reachable position:
after 1. a4 a5 2. h3 Ra6 black has only the short right, yet the
Display impl emits 'q' based on BLACK_SHORT (source line 495), so the
serialization reads KQkq and re-parsing restores the long right,
yielding a different position. -/
theorem C3_roundtrip_fails_on_reachable_position :
    Board.default_board.toFen = "rnbqkbnr/pppppppp/8/8/8/8/PPPPPPPP/RNBQKBNR w KQkq - 0 1" ∧
    (parse "rnbqkbnr/pppppppp/8/8/8/8/PPPPPPPP/RNBQKBNR w KQkq - 0 1").toOption =
      some Board.default_board ∧
    reachedC3.map (fun b => decide ((parse b.toFen).toOption = some b)) = some false := by
  decide

/-! ## Claim C9 -/

/-- With the check filter disabled the enumeration makes no recursive
call, so its result does not depend on the remaining fuel: one unit
suffices. -/
theorem enumFuel_false_fuel_independent (n : ℕ) (p : Piece) (l : SquareSpec) (b : Board) :
    enumFuel (n + 1) p l b false = enumFuel 1 p l b false := by
  rcases p with ⟨pt, pc⟩
  cases pt <;> simp [enumFuel, get_moves_king]

/-- C9: the legal-move enumeration terminates at recursion depth
exactly 2: with check filtering enabled every inner self-invocation
(the retain filter and the castling threat scans) runs with filtering
disabled and hence recurses no further, so any fuel of at least 2
computes the same result as enumerate_legal_moves (= fuel 2), and with
filtering disabled fuel 1 already suffices. -/
theorem C9_enumeration_depth_exactly_two (p : Piece) (l : SquareSpec) (b : Board) (n : ℕ)
    (h : 2 ≤ n) :
    enumFuel n p l b true = enumerate_legal_moves p l b true ∧
    enumFuel n p l b false = enumFuel 1 p l b false := by
  obtain ⟨k, rfl⟩ : ∃ k, n = k + 2 := ⟨n - 2, by omega⟩
  refine ⟨?_, enumFuel_false_fuel_independent (k + 1) p l b⟩
  show enumFuel (k + 1 + 1) p l b true = enumFuel (1 + 1) p l b true
  rcases p with ⟨pt, pc⟩
  cases pt <;>
    simp [enumFuel, get_moves_king, threatScanWith, retainKeepWith,
      enumFuel_false_fuel_independent]

/-- C9 witness: fuel 3 agrees with the engine's depth-2 enumeration on
the white king square of the default board, in both filter modes. -/
theorem C9_witness :
    enumFuel 3 ⟨.King, .White⟩ ⟨0, 4⟩ Board.default_board true =
      enumerate_legal_moves ⟨.King, .White⟩ ⟨0, 4⟩ Board.default_board true ∧
    enumFuel 3 ⟨.King, .White⟩ ⟨0, 4⟩ Board.default_board false =
      enumFuel 1 ⟨.King, .White⟩ ⟨0, 4⟩ Board.default_board false :=
  C9_enumeration_depth_exactly_two ⟨.King, .White⟩ ⟨0, 4⟩ Board.default_board 3
    (by decide)

/-! ## Claim C8, counterexample -/

/-- C8 counterexample: the claim requires parsing to fail on any
placement character outside the piece letters and the digits 1-8, but
parse_piece accepts every ascii digit: '0' contributes an empty run of
zero squares, so this string containing '0' parses successfully. -/
theorem C8_counterexample_zero_digit_parses :
    (parse "rnbqkbnr/pppppppp/8/8/8/8/PPPPPPPP/RNBQKBNR0 w KQkq - 0 1").isOk = true ∧
    '0' ∈ "rnbqkbnr/pppppppp/8/8/8/8/PPPPPPPP/RNBQKBNR0 w KQkq - 0 1".data := by
  decide

/-! ## Claim C8, amended characterization

The predicate fenSpecOK is modelled from the amended claim's words,
independently of the parser's control flow; the amended claim is then
the equality of parse success with this predicate, for every input
string. -/

/-- Characters the amended claim recognizes in the placement: any
decimal digit (0-9) or one of the twelve piece letters. -/
def recognizedChar (c : Char) : Bool :=
  c.isDigit || upperLetters.contains c || lowerLetters.contains c

/-- How many squares one placement character stands for: its value for
a digit, one for a piece letter. -/
def charWidth (c : Char) : Nat := if c.isDigit then c.toNat - '0'.toNat else 1

/-- Amended claim, per placement row: every character recognized and
the widths summing to exactly 8. -/
def rowOK (r : List Char) : Bool :=
  r.all recognizedChar && ((r.map charWidth).sum == 8)

/-- Amended claim, placement: exactly 8 rows, each row acceptable. -/
def placementOK (bf : List Char) : Bool :=
  ((splitChar '/' bf).length == 8) && (splitChar '/' bf).all rowOK

/-- The amended claim's exact success condition: at least six fields;
acceptable placement; turn exactly w or b; en-passant either - or a
valid square token; both counters parsing as u32 integers.  The
castling field is never a cause of failure. -/
def fenSpecOK (s : String) : Bool :=
  match splitChar ' ' s.data with
  | bf :: tf :: _cf :: ef :: hf :: ff :: _ =>
    placementOK bf && (tf == ['w'] || tf == ['b']) &&
    (ef == ['-'] || (parseSquareChars ef).isSome) &&
    (parseU32 hf).isSome && (parseU32 ff).isSome
  | _ => false

/-- parse_piece accepts exactly the recognized characters. -/
theorem parse_piece_isSome (c : Char) : (parse_piece c).isSome = recognizedChar c := by
  by_cases hd : c.isDigit = true
  · simp [parse_piece, recognizedChar, hd]
  · by_cases hu : c ∈ upperLetters
    · have : c = 'P' ∨ c = 'N' ∨ c = 'B' ∨ c = 'R' ∨ c = 'Q' ∨ c = 'K' := by
        simpa [upperLetters] using hu
      rcases this with rfl | rfl | rfl | rfl | rfl | rfl <;> decide
    · by_cases hl : c ∈ lowerLetters
      · have : c = 'p' ∨ c = 'n' ∨ c = 'b' ∨ c = 'r' ∨ c = 'q' ∨ c = 'k' := by
          simpa [lowerLetters] using hl
        rcases this with rfl | rfl | rfl | rfl | rfl | rfl <;> decide
      · simp [parse_piece, recognizedChar, hd, hu, hl]

/-- A placement char read as an empty run is a digit with its value. -/
theorem parse_piece_empty (c : Char) (n : ℕ) (h : parse_piece c = some (.empty n)) :
    c.isDigit = true ∧ n = c.toNat - '0'.toNat := by
  by_cases hd : c.isDigit = true
  · rw [parse_piece.eq_def, if_pos hd] at h
    cases h
    exact ⟨hd, rfl⟩
  · rw [parse_piece.eq_def, if_neg hd] at h
    split at h
    · cases h
    · split at h <;> cases h

/-- A placement char read as a piece is not a digit. -/
theorem parse_piece_piece (c : Char) (p : Piece) (h : parse_piece c = some (.piece p)) :
    c.isDigit = false := by
  by_cases hd : c.isDigit = true
  · rw [parse_piece.eq_def, if_pos hd] at h
    cases h
  · rw [Bool.not_eq_true] at hd
    exact hd

/-- The length of a built row is the sum of the character widths. -/
theorem build_row_length (cs : List Char) (l : List (Option Piece))
    (h : build_row cs = some l) : l.length = (cs.map charWidth).sum := by
  induction cs generalizing l with
  | nil =>
    rw [build_row] at h
    cases h
    rfl
  | cons c rest ih =>
    rw [build_row] at h
    rcases hp : parse_piece c with _ | pr
    · rw [hp] at h; cases h
    · rw [hp] at h
      rcases pr with p | n
      · rcases hb : build_row rest with _ | l0
        · rw [hb] at h; cases h
        · rw [hb] at h
          cases h
          have hw : charWidth c = 1 := by
            rw [charWidth, if_neg]
            rw [parse_piece_piece c p hp]
            exact Bool.false_ne_true
          simp [ih l0 hb, hw]
          omega
      · rcases hb : build_row rest with _ | l0
        · rw [hb] at h; cases h
        · rw [hb] at h
          cases h
          obtain ⟨hd, hn⟩ := parse_piece_empty c n hp
          have hw : charWidth c = n := by rw [charWidth, if_pos hd, hn]
          simp [ih l0 hb, hw]

/-- A row builds successfully exactly when every char is recognized. -/
theorem build_row_isSome (cs : List Char) :
    (build_row cs).isSome = cs.all recognizedChar := by
  induction cs with
  | nil => rfl
  | cons c rest ih =>
    rw [build_row]
    rcases hp : parse_piece c with _ | pr
    · have hc : recognizedChar c = false := by
        rw [← parse_piece_isSome, hp]; rfl
      simp [hc]
    · have hc : recognizedChar c = true := by
        rw [← parse_piece_isSome, hp]; rfl
      rcases pr with p | n <;> simp [hc, Option.isSome_map', ← ih]

/-- parse_rows preserves the number of rows on success. -/
theorem parse_rows_length (orig : String) (rows : List (List Char))
    (ls : List (List (Option Piece))) (h : parse_rows orig rows = .ok ls) :
    ls.length = rows.length := by
  induction rows generalizing ls with
  | nil => rw [parse_rows] at h; cases h; rfl
  | cons r rest ih =>
    rw [parse_rows] at h
    rcases hb : build_row r with _ | line
    · rw [hb] at h; cases h
    · rw [hb] at h
      dsimp only at h
      by_cases h8 : line.length = 8
      · rw [if_pos h8] at h
        rcases hpr : parse_rows orig rest with e | ls0
        · rw [hpr] at h; cases h
        · rw [hpr] at h
          dsimp only at h
          cases h
          simp [ih ls0 hpr]
      · rw [if_neg h8] at h; cases h

/-- The row loop succeeds exactly when every row is acceptable. -/
theorem parse_rows_isOk (orig : String) (rows : List (List Char)) :
    (parse_rows orig rows).isOk = rows.all rowOK := by
  induction rows with
  | nil => rfl
  | cons r rest ih =>
    rw [parse_rows]
    rcases hb : build_row r with _ | line
    · have hc : r.all recognizedChar = false := by
        rw [← build_row_isSome, hb]; rfl
      simp [rowOK, hc, Except.isOk, Except.toBool]
    · have hc : r.all recognizedChar = true := by
        rw [← build_row_isSome, hb]; rfl
      have hlen := build_row_length r line hb
      dsimp only
      by_cases h8 : line.length = 8
      · rw [if_pos h8]
        have hsum : ((r.map charWidth).sum == 8) = true := by
          simp [← hlen, h8]
        rcases hpr : parse_rows orig rest with e | ls0
        · have hrest : rest.all rowOK = false := by rw [← ih, hpr]; rfl
          simp [rowOK, hc, hsum, hrest, Except.isOk, Except.toBool]
        · have hrest : rest.all rowOK = true := by rw [← ih, hpr]; rfl
          simp [rowOK, hc, hsum, hrest, Except.isOk, Except.toBool]
      · rw [if_neg h8]
        have hsum : ((r.map charWidth).sum == 8) = false := by
          simp [← hlen]
          omega
        simp [rowOK, hsum, Except.isOk, Except.toBool]

/-- parse_boardstate succeeds exactly on acceptable placements. -/
theorem parse_boardstate_isOk (bf : List Char) :
    (parse_boardstate bf).isOk = placementOK bf := by
  rw [parse_boardstate.eq_def, placementOK]
  rcases hpr : parse_rows (String.mk bf) (splitChar '/' bf) with e | ls
  · have hall : (splitChar '/' bf).all rowOK = false := by
      rw [← parse_rows_isOk, hpr]; rfl
    simp [hall, Except.isOk, Except.toBool]
  · have hall : (splitChar '/' bf).all rowOK = true := by
      rw [← parse_rows_isOk, hpr]; rfl
    have hlen := parse_rows_length _ _ _ hpr
    dsimp only
    by_cases h8 : ls.reverse.length = 8
    · rw [if_pos h8]
      have hlt : ((splitChar '/' bf).length == 8) = true := by
        simp only [List.length_reverse] at h8
        simp [← hlen, h8]
      simp [hlt, hall, Except.isOk, Except.toBool]
    · rw [if_neg h8]
      have hlt : ((splitChar '/' bf).length == 8) = false := by
        simp only [List.length_reverse] at h8
        simp [← hlen]
        omega
      simp [hlt, Except.isOk, Except.toBool]

/-- The turn field parses exactly when it is w or b. -/
theorem parse_turn_isSome (tf : List Char) :
    (parse_turn tf).isSome = (tf == ['w'] || tf == ['b']) := by
  rw [parse_turn]
  by_cases h1 : tf = ['w']
  · simp [h1]
  · by_cases h2 : tf = ['b'] <;> simp [h1, h2]

/-- The en-passant field parses exactly when it is - or a square. -/
theorem parse_ep_isSome (ef : List Char) :
    (parse_ep ef).isSome = (ef == ['-'] || (parseSquareChars ef).isSome) := by
  rw [parse_ep]
  by_cases h1 : ef = ['-']
  · simp [h1]
  · simp [h1, Option.isSome_map']

/-- C8 (amended): parsing fails atomically (an error and no position)
exactly when a field is missing, the placement does not consist of
exactly 8 rows, a row's widths do not sum to exactly 8 (digits count
their value), a placement character falls outside the piece letters
and the decimal digits 0-9, the turn field is not exactly w or b, the
en-passant field is neither - nor a valid square token, or a counter
fails to parse as a u32 integer.  Equivalently: parse succeeds exactly
on the inputs accepted by fenSpecOK, for every input string. -/
theorem C8_amended_parse_succeeds_iff_spec (s : String) :
    (parse s).isOk = fenSpecOK s := by
  rw [parse.eq_def, fenSpecOK.eq_def]
  rcases hsp : splitChar ' ' s.data with _ | ⟨bf, _ | ⟨tf, _ | ⟨cf, _ | ⟨ef, _ | ⟨hf, _ | ⟨ff, rest⟩⟩⟩⟩⟩⟩ <;>
    try rfl
  rcases hbs : parse_boardstate bf with e | grid
  · have hpl : placementOK bf = false := by rw [← parse_boardstate_isOk, hbs]; rfl
    simp [hbs, hpl, Except.isOk, Except.toBool]
  · have hpl : placementOK bf = true := by rw [← parse_boardstate_isOk, hbs]; rfl
    rcases ht : parse_turn tf with _ | turn
    · have htr : (tf == ['w'] || tf == ['b']) = false := by
        rw [← parse_turn_isSome, ht]; rfl
      simp [hbs, ht, hpl, htr, Except.isOk, Except.toBool]
    · have htr : (tf == ['w'] || tf == ['b']) = true := by
        rw [← parse_turn_isSome, ht]; rfl
      rcases hep : parse_ep ef with _ | en_passant
      · have her : (ef == ['-'] || (parseSquareChars ef).isSome) = false := by
          rw [← parse_ep_isSome, hep]; rfl
        simp [hbs, ht, hep, hpl, htr, her, Except.isOk, Except.toBool]
      · have her : (ef == ['-'] || (parseSquareChars ef).isSome) = true := by
          rw [← parse_ep_isSome, hep]; rfl
        rcases hh : parseU32 hf with _ | halfmove
        · simp [hbs, ht, hep, hh, hpl, htr, her, Except.isOk, Except.toBool]
        · rcases hfm : parseU32 ff with _ | fullmove <;>
            simp [hbs, ht, hep, hh, hfm, hpl, htr, her, Except.isOk, Except.toBool]

end ThstroChess
